import Mathlib

/-!
Verification of the SQL-column rewriting script `check-xml-table/main.py`.

The script rewrites MyBatis-style XML mapping files: for a configured set of
`(table, column)` pairs it prepends the marker string `ced_todo_` to direct
`table.column` references, to `alias.column` references (with the alias
inferred line by line from `FROM`/`JOIN`/`UPDATE` clauses), and to
`column="col"` result-mapping attributes, collecting a report of
`"filepath:linenum"` keys for every line it modified.

We give a shallow embedding on `List Char`.  Text lines are lists of
characters; each compiled regular expression of the source is translated into
an explicit matcher over a position in the text (the preceding text is carried
reversed so look-behinds read naturally), and `re.subn` becomes a left-to-right
non-overlapping scan.  Python `re.IGNORECASE` is modelled by case-insensitive
character comparison via `Char.toLower`, and the `\w`/`\s` classes by their
ASCII meaning (all inputs of interest are ASCII).

Two models of the per-line processing are given:

* `processLineE` is the faithful translation.  The source iterates
  `replace_patterns.items()` at line 131 unpacking every key as a 3-tuple,
  but the dictionary also holds 2-tuple keys `(col, 'resultmap')` inserted at
  line 110, so the loop raises `ValueError` as soon as it reaches such a key;
  this is modelled by `Except Unit`.  The error fires on the second pattern
  key, i.e. whenever the target map contains at least one column, after the
  substitution for the first direct key has already been applied in memory.

* `processLine` is the evidently intended model: identical in every respect
  except that the pass-2 loop iterates only the `'direct'` keys, which is
  exactly what the `if _type == 'direct'` test inside the broken loop is
  there to achieve.

All recursive scanners take an explicit fuel argument (the length of the text
suffices, as every step consumes at least one character), so that every
definition is structurally recursive and evaluates by `decide`/`rfl`.
-/

/-- A text string, as a list of characters. -/
abbrev Str := List Char

/-- The marker string `PREFIX = "ced_todo_"` of the source (line 16). -/
def marker : Str := "ced_todo_".toList

/-- `marker` reversed, for look-behind tests. -/
def markerRev : Str := marker.reverse

/-- ASCII model of Python's regex class `\w`: letters, digits, underscore. -/
def isWordChar (c : Char) : Bool := c.isAlphanum || c = '_'

/-- ASCII model of Python's regex class `\s`. -/
def isSpaceChar (c : Char) : Bool :=
  c = ' ' || c = '\t' || c = '\n' || c = '\r' || c = '\x0b' || c = '\x0c'

/-- Case-insensitive character equality (model of `re.IGNORECASE`). -/
def ciEqChar (a b : Char) : Bool := a.toLower = b.toLower

/-- Match a literal pattern case-insensitively at the start of `text`;
returns the matched slice (original casing) and the remaining text.
This models `re.escape(lit)` inside an `re.IGNORECASE` pattern. -/
def ciStrip : Str → Str → Option (Str × Str)
  | [], text => some ([], text)
  | _ :: _, [] => none
  | p :: ps, t :: ts =>
    if ciEqChar p t then
      match ciStrip ps ts with
      | some (m, r) => some (t :: m, r)
      | none => none
    else none

/-- `(?<!\w)` at the current position: `prevRev` is the preceding text,
reversed. -/
def notWordBefore (prevRev : Str) : Bool :=
  match prevRev with
  | [] => true
  | c :: _ => !isWordChar c

/-- Does `patRev` (a pattern, reversed) match the beginning of `prevRev`
case-insensitively?  Used for `(?<!pat)` look-behinds. -/
def ciSeqAtRev : Str → Str → Bool
  | [], _ => true
  | _ :: _, [] => false
  | p :: ps, t :: ts => ciEqChar p t && ciSeqAtRev ps ts

/-- `(?<!ced_todo_)` at the current position (case-insensitive, like the
enclosing pattern). -/
def markerBefore (prevRev : Str) : Bool := ciSeqAtRev markerRev prevRev

/-- `(?!\w)` at the current position. -/
def nextNotWord (text : Str) : Bool :=
  match text with
  | [] => true
  | c :: _ => !isWordChar c

/-- Matcher for `create_direct_usage_pattern_for_replace` (source lines
29-33): pattern `(?<!ced_todo_)(?<!\w)(T)\.(C)(?!\w)` with `re.IGNORECASE`,
together with the replacement template `ced_todo_\1.ced_todo_\2`
(source line 107).  Returns `(replacement, consumed length)` on a match at
the current position. -/
def matchDirect (t c : Str) (prevRev text : Str) : Option (Str × Nat) :=
  if markerBefore prevRev then none
  else if !notWordBefore prevRev then none
  else
    match ciStrip t text with
    | none => none
    | some (mt, r1) =>
      match r1 with
      | '.' :: r2 =>
        match ciStrip c r2 with
        | none => none
        | some (mc, r3) =>
          if nextNotWord r3 then
            some (marker ++ mt ++ '.' :: marker ++ mc, mt.length + 1 + mc.length)
          else none
      | _ => none

/-- Matcher for `create_alias_usage_pattern_for_replace` (source lines
37-42): the pattern actually compiled is the second assignment,
`(?<!\w)(A)\.(?<!ced_todo_)(C)(?!\w)` with `re.IGNORECASE`, with replacement
template `\1.ced_todo_\2` (source line 144).  The `(?<!ced_todo_)` sits right
after the literal dot, so the nine characters before that position end in
`'.'` and the look-behind can never fire; it is kept for faithfulness. -/
def matchAliasUse (a c : Str) (prevRev text : Str) : Option (Str × Nat) :=
  if !notWordBefore prevRev then none
  else
    match ciStrip a text with
    | none => none
    | some (ma, r1) =>
      match r1 with
      | '.' :: r2 =>
        if markerBefore ('.' :: (ma.reverse ++ prevRev)) then none
        else
          match ciStrip c r2 with
          | none => none
          | some (mc, r3) =>
            if nextNotWord r3 then
              some (ma ++ '.' :: marker ++ mc, ma.length + 1 + mc.length)
            else none
      | _ => none

/-- Matcher for `create_resultmap_column_pattern_for_replace` (source lines
46-50): pattern `(\bcolumn\s*=\s*["\'])(?<!ced_todo_)(C)(["\'])` with
`re.IGNORECASE`, replacement template `\1ced_todo_\2\3` (source line 112).
As in `matchAliasUse` the look-behind sits right after the quote character
and can never fire; it is kept for faithfulness.  The closing quote is any
quote character (the pattern does not force it to equal the opening one). -/
def matchResultMap (c : Str) (prevRev text : Str) : Option (Str × Nat) :=
  if !notWordBefore prevRev then none
  else
    match ciStrip ("column".toList) text with
    | none => none
    | some (m1, r1) =>
      let sp1 := r1.takeWhile isSpaceChar
      match r1.dropWhile isSpaceChar with
      | '=' :: r3 =>
        let sp2 := r3.takeWhile isSpaceChar
        match r3.dropWhile isSpaceChar with
        | q1 :: r5 =>
          if q1 = '"' || q1 = '\'' then
            if markerBefore (q1 :: (sp2.reverse ++ '=' :: sp1.reverse ++ m1.reverse ++ prevRev)) then
              none
            else
              match ciStrip c r5 with
              | none => none
              | some (mc, r6) =>
                match r6 with
                | q2 :: _ =>
                  if q2 = '"' || q2 = '\'' then
                    some (m1 ++ sp1 ++ '=' :: sp2 ++ q1 :: marker ++ mc ++ [q2],
                          m1.length + sp1.length + 1 + sp2.length + 1 + mc.length + 1)
                  else none
                | [] => none
          else none
        | [] => none
      | _ => none

/-- Left-to-right non-overlapping substitution scan: the model of
`pattern.subn(repl, text)`.  `m prevRev text` reports a match at the current
position as `(replacement, consumed length)`; on a match the scan resumes
after the consumed characters.  `fuel` bounds the recursion; `fuel =
text.length` always suffices because every step consumes at least one
character. -/
def scanSub (m : Str → Str → Option (Str × Nat)) : Nat → Str → Str → Str × Nat
  | 0, _, text => (text, 0)
  | fuel + 1, prevRev, text =>
    match text with
    | [] => ([], 0)
    | ch :: rest =>
      match m prevRev text with
      | some (rep, k) =>
        if k = 0 then
          let r := scanSub m fuel (ch :: prevRev) rest
          (ch :: r.1, r.2)
        else
          let r := scanSub m fuel ((text.take k).reverse ++ prevRev) (text.drop k)
          (rep ++ r.1, r.2 + 1)
      | none =>
        let r := scanSub m fuel (ch :: prevRev) rest
        (ch :: r.1, r.2)

/-- `pattern.subn(repl, line)`: returns the new text and the number of
substitutions made. -/
def subnC (m : Str → Str → Option (Str × Nat)) (line : Str) : Str × Nat :=
  scanSub m line.length [] line

/-- Backtracking helper for `\s+` followed by a continuation: consumes one or
more space characters, preferring the longest run (greedy) and backtracking
to shorter runs if the continuation fails, exactly like the regex engine. -/
def spacesThen (k : Str → Option α) : Str → Option α
  | [] => none
  | c :: rest =>
    if isSpaceChar c then
      match spacesThen k rest with
      | some r => some r
      | none => k rest
    else none

/-- `(\b\w+\b)` at the current position, which in the alias pattern is always
reached right after a space character (a non-word character), so the leading
`\b` reduces to the next character being a word character; the run is maximal
so the trailing `\b` is automatic.  Returns `(token, rest)`. -/
def tokenAt (text : Str) : Option (Str × Str) :=
  match text with
  | c :: _ =>
    if isWordChar c then some (text.takeWhile isWordChar, text.dropWhile isWordChar)
    else none
  | [] => none

/-- `(?:AS\s+)?(\b\w+\b)`: try the `AS` branch first (greedy option), fall
back to reading the token directly. -/
def tokOptAS (r : Str) : Option (Str × Str) :=
  match ciStrip ("AS".toList) r with
  | some (_, r2) =>
    match spacesThen tokenAt r2 with
    | some res => some res
    | none => tokenAt r
  | none => tokenAt r

/-- `\s+(?:AS\s+)?(\b\w+\b)`, the tail of both alias-declaration branches. -/
def afterTbl : Str → Option (Str × Str) := spacesThen tokOptAS

/-- `(?:FROM|JOIN|UPDATE)`, case-insensitive. -/
def kwStrip (text : Str) : Option Str :=
  match ciStrip ("FROM".toList) text with
  | some (_, r) => some r
  | none =>
    match ciStrip ("JOIN".toList) text with
    | some (_, r) => some r
    | none =>
      match ciStrip ("UPDATE".toList) text with
      | some (_, r) => some r
      | none => none

/-- First branch of `create_alias_pattern` (source line 22):
`(?:FROM|JOIN|UPDATE)\s+T\s+(?:AS\s+)?(\b\w+\b)`.  On a match returns the
candidate alias, namely `match.group(2)` = the captured token, and the text
after the whole match. -/
def tryB1 (t : Str) (text : Str) : Option (Str × Str) :=
  match kwStrip text with
  | none => none
  | some r1 =>
    spacesThen (fun r2 =>
      match ciStrip t r2 with
      | none => none
      | some (_, r3) => afterTbl r3) r1

/-- Second branch of `create_alias_pattern` (source line 23):
`([,\s])T\s+(?:AS\s+)?(\b\w+\b)`.  On a match the source extracts
`match.group(4)`, which is the `([,\s])` separator capture — NOT the alias
token (that would be group 5).  Faithfully, the candidate returned here is
the one-character separator; the token is matched and then discarded. -/
def tryB2 (t : Str) (text : Str) : Option (Str × Str) :=
  match text with
  | c :: rest =>
    if c = ',' || isSpaceChar c then
      match ciStrip t rest with
      | none => none
      | some (_, r2) =>
        match afterTbl r2 with
        | some res => some ([c], res.2)
        | none => none
    else none
  | [] => none

/-- `finditer` of the combined pattern `(B1)|(B2)` (source lines 24-25) over
a line, yielding for each match the candidate alias string the source
extracts (`match.group(2) or match.group(4)`), in match order.  The scan
tries every position left to right, prefers branch 1 at equal positions, and
resumes after the end of each match. -/
def findAliases (t : Str) : Nat → Str → List Str
  | 0, _ => []
  | fuel + 1, text =>
    match text with
    | [] => []
    | _ :: rest =>
      match tryB1 t text with
      | some (cand, restA) => cand :: findAliases t fuel restA
      | none =>
        match tryB2 t text with
        | some (cand, restA) => cand :: findAliases t fuel restA
        | none => findAliases t fuel rest

/-- The per-file alias dictionary `current_aliases` (source line 96):
an association list with Python-dict update semantics (update in place,
append new keys at the end). -/
abbrev AState := List (Str × Str)

/-- Python dict assignment `d[k] = v`. -/
def setA : AState → Str → Str → AState
  | [], k, v => [(k, v)]
  | (k0, v0) :: rest, k, v =>
    if k0 = k then (k0, v) :: rest else (k0, v0) :: setA rest k v

/-- First-match association-list lookup (Python dict access). -/
def lookupG [DecidableEq κ] : List (κ × β) → κ → Option β
  | [], _ => none
  | (k0, v0) :: rest, k => if k0 = k then some v0 else lookupG rest k

/-- The reserved-word list of source line 125. -/
def reservedWords : List Str :=
  (["WHERE", "SET", "VALUES", "ON", "AND", "OR", "AS", "ORDER", "GROUP",
    "BY", "LEFT", "RIGHT", "INNER", "OUTER", "JOIN"].map String.toList)

/-- The guard of source line 125: `alias and alias.upper() not in [...]`. -/
def validAlias (cand : Str) : Bool :=
  !cand.isEmpty && decide ((cand.map Char.toUpper) ∉ reservedWords)

/-- Fold the candidate aliases of one line for one table into the alias
dictionary (the inner loop of source lines 123-126): each valid candidate
overwrites the table's current alias, so the last valid one wins. -/
def updateAlias (st : AState) (t : Str) (cands : List Str) : AState :=
  cands.foldl (fun s cand => if validAlias cand then setA s t cand else s) st

/-- The target map `{table: [columns]}`, as an ordered association list
(Python dicts preserve insertion order). -/
abbrev TMap := List (Str × List Str)

/-- Pass 1 (source lines 121-127): alias detection over the original line,
for every targeted table in map order. -/
def observeLine (mapT : TMap) (line : Str) (st : AState) : AState :=
  mapT.foldl (fun s pr => updateAlias s pr.1 (findAliases pr.1 line.length line)) st

/-- Deduplication keeping first occurrences: the effect of inserting keys
into a Python dict in order (re-assignment keeps the original position). -/
def dedupFirst [DecidableEq α] (l : List α) : List α :=
  l.foldl (fun acc a => if a ∈ acc then acc else acc ++ [a]) []

/-- The `'direct'` keys of `replace_patterns` in dictionary order
(source lines 102-107). -/
def directKeys (mapT : TMap) : List (Str × Str) :=
  dedupFirst (mapT.flatMap (fun pr => pr.2.map (fun c => (pr.1, c))))

/-- Pass 2, intended semantics (source lines 130-136 with the loop iterating
the `'direct'` keys as the `if _type == 'direct'` test intends):
apply each direct-usage substitution in key order, OR-ing the
replacement-count flags. -/
def pass2 (mapT : TMap) (line : Str) : Str × Bool :=
  (directKeys mapT).foldl (fun acc pr =>
    let r := subnC (matchDirect pr.1 pr.2) acc.1
    (r.1, acc.2 || r.2 != 0)) (line, false)

/-- Pass 3 (source lines 138-148): for every bound alias in dictionary order,
for every column of that table in list order, substitute `alias.column`. -/
def pass3 (mapT : TMap) (st : AState) (line : Str) : Str × Bool :=
  st.foldl (fun acc pr =>
    match lookupG mapT pr.1 with
    | some cols =>
      cols.foldl (fun acc2 c =>
        let r := subnC (matchAliasUse pr.2 c) acc2.1
        (r.1, acc2.2 || r.2 != 0)) acc
    | none => acc) (line, false)

/-- Pass 4 (source lines 150-163): result-mapping substitution per column,
with the `processed_resultmap_cols` set; note the source adds a column to the
set only when its replacement count is non-zero. -/
def pass4 (mapT : TMap) (line : Str) : Str × Bool :=
  let res := mapT.foldl (fun (acc : Str × Bool × List Str) pr =>
    pr.2.foldl (fun (acc2 : Str × Bool × List Str) c =>
      if c ∈ acc2.2.2 then acc2
      else
        let r := subnC (matchResultMap c) acc2.1
        if r.2 != 0 then (r.1, true, c :: acc2.2.2)
        else (r.1, acc2.2.1, acc2.2.2)) acc)
    (line, false, [])
  (res.1, res.2.1)

/-- Passes 2-4 on one line given the alias state after pass 1; returns the
rewritten line and the `line_was_modified` flag (true iff some pass made a
non-zero number of replacements). -/
def rewritePasses (mapT : TMap) (st : AState) (line : Str) : Str × Bool :=
  let p2 := pass2 mapT line
  let p3 := pass3 mapT st p2.1
  let p4 := pass4 mapT p3.1
  (p4.1, p2.2 || p3.2 || p4.2)

/-- One line of the intended model: observe aliases on the original line,
then run passes 2-4 (source lines 116-163 with the pass-2 loop repaired to
iterate only the direct keys). -/
def processLine (mapT : TMap) (st : AState) (line : Str) : AState × Str × Bool :=
  let st' := observeLine mapT line st
  let r := rewritePasses mapT st' line
  (st', r.1, r.2)

/-- A key of the `replace_patterns` dictionary: a 3-tuple `(table, col,
'direct')` or a 2-tuple `(col, 'resultmap')` (source lines 105, 110). -/
inductive PatKey where
  | direct : Str → Str → PatKey
  | rmap : Str → PatKey
deriving DecidableEq

/-- The keys of `replace_patterns` in dictionary (first-insertion) order:
for each table and column, the direct key then the resultmap key. -/
def allKeys (mapT : TMap) : List PatKey :=
  dedupFirst (mapT.flatMap (fun pr =>
    pr.2.flatMap (fun c => [PatKey.direct pr.1 c, PatKey.rmap c])))

/-- The faithful pass-2 loop (source line 131): each key is unpacked as a
3-tuple `(table, col, _type)`, so reaching a 2-tuple `(col, 'resultmap')`
key raises `ValueError`; direct keys seen before that are substituted. -/
def pass2E : List PatKey → Str × Bool → Except Unit (Str × Bool)
  | [], acc => .ok acc
  | PatKey.direct t c :: ks, acc =>
    let r := subnC (matchDirect t c) acc.1
    pass2E ks (r.1, acc.2 || r.2 != 0)
  | PatKey.rmap _ :: _, _ => .error ()

/-- One line of the faithful model: as `processLine`, but pass 2 iterates all
`replace_patterns` keys and raises on the first 2-tuple key. -/
def processLineE (mapT : TMap) (st : AState) (line : Str) :
    Except Unit (AState × Str × Bool) :=
  let st' := observeLine mapT line st
  match pass2E (allKeys mapT) (line, false) with
  | .error e => .error e
  | .ok p2 =>
    let p3 := pass3 mapT st' p2.1
    let p4 := pass4 mapT p3.1
    .ok (st', p4.1, p2.2 || p3.2 || p4.2)

/-- Canonical decimal digits of a natural number (what Python's f-string
interpolation produces for the `int` line number).  Fuel-based; `n + 1`
units of fuel always suffice. -/
def natDigsAux : Nat → Nat → Str
  | 0, _ => []
  | fuel + 1, n =>
    if n < 10 then [Char.ofNat (48 + n)]
    else natDigsAux fuel (n / 10) ++ [Char.ofNat (48 + n % 10)]

/-- Decimal representation of a line number. -/
def natDigs (n : Nat) : Str := natDigsAux (n + 1) n

/-- The report key `f"{file_path}:{line_num}"` (source line 168). -/
def makeKey (path : Str) (n : Nat) : Str := path ++ ':' :: natDigs n

/-- Python `set.add`: the report set, modelled as a duplicate-free list. -/
def setAdd (s : List Str) (k : Str) : List Str := if k ∈ s then s else s ++ [k]

/-- Per-line loop of `process_and_modify_file` (source lines 116-172) in the
intended model: threads the alias state, collects the rewritten lines and
the 1-based numbers of modified lines (`i` is the number of the next line). -/
def runLines (mapT : TMap) : AState → Nat → List Str → List Str × List Nat
  | _, _, [] => ([], [])
  | st, i, l :: ls =>
    let r := processLine mapT st l
    let rest := runLines mapT r.1 (i + 1) ls
    (r.2.1 :: rest.1, (if r.2.2 then [i] else []) ++ rest.2)

/-- Per-line loop in the faithful model: the `ValueError` of the pass-2 loop
aborts the whole file (and the whole program; nothing catches it). -/
def runLinesE (mapT : TMap) : AState → Nat → List Str → Except Unit (List Str × List Nat)
  | _, _, [] => .ok ([], [])
  | st, i, l :: ls =>
    match processLineE mapT st l with
    | .error e => .error e
    | .ok r =>
      match runLinesE mapT r.1 (i + 1) ls with
      | .error e => .error e
      | .ok rest => .ok (r.2.1 :: rest.1, (if r.2.2 then [i] else []) ++ rest.2)

/-- `process_and_modify_file` (source lines 74-198), intended model.
File input/output is abstracted: `readRes` is `none` when the read raises
(source lines 87-92: log an error and return `False` before anything else),
and `writeOk` tells whether the write-back at lines 182-183 succeeds (on
failure the source logs and returns `False`; the keys already added to the
shared report set stay).  Returns (return value, updated report set, lines
written back if any). -/
def processFile (path : Str) (readRes : Option (List Str)) (writeOk : Bool)
    (mapT : TMap) (report : List Str) : Bool × List Str × Option (List Str) :=
  match readRes with
  | none => (false, report, none)
  | some lines =>
    let r := runLines mapT [] 1 lines
    let rep := (r.2.map (makeKey path)).foldl setAdd report
    if r.2.isEmpty then (false, rep, none)
    else if writeOk then (true, rep, some r.1)
    else (false, rep, none)

/-- `process_and_modify_file`, faithful model (the per-line `ValueError`
escapes the function; only the read is guarded by a `try`). -/
def processFileE (path : Str) (readRes : Option (List Str)) (writeOk : Bool)
    (mapT : TMap) (report : List Str) :
    Except Unit (Bool × List Str × Option (List Str)) :=
  match readRes with
  | none => .ok (false, report, none)
  | some lines =>
    match runLinesE mapT [] 1 lines with
    | .error e => .error e
    | .ok r =>
      let rep := (r.2.map (makeKey path)).foldl setAdd report
      if r.2.isEmpty then .ok (false, rep, none)
      else if writeOk then .ok (true, rep, some r.1)
      else .ok (false, rep, none)

/-- Python `str.split(':')`. -/
def splitColon : Str → List Str
  | [] => [[]]
  | c :: rest =>
    if c = ':' then [] :: splitColon rest
    else
      match splitColon rest with
      | [] => [[c]]
      | p :: ps => (c :: p) :: ps

/-- Decimal value of a digit string. -/
def digitsVal (l : Str) : Nat := l.foldl (fun a c => a * 10 + (c.toNat - 48)) 0

/-- Model of Python `int(s)` on the fragment the program can produce:
surrounding whitespace is stripped, then a non-empty all-digit string parses
to its value; anything else raises `ValueError` (`none`).  (Signs, digit
grouping with underscores and non-ASCII digits are not modelled; no key the
program builds contains them, nor does any input used below.) -/
def pyInt (sIn : Str) : Option Nat :=
  let t := ((sIn.dropWhile isSpaceChar).reverse.dropWhile isSpaceChar).reverse
  if t.isEmpty then none
  else if t.all Char.isDigit then some (digitsVal t) else none

/-- The sort key of the report (source line 264):
`(x.split(':')[0], int(x.split(':')[1]))`; `none` models the exceptions
(`IndexError` when there is no colon, `ValueError` when the second segment
is not numeric — e.g. for Windows-style paths containing `':'`). -/
def parseKey (k : Str) : Option (Str × Nat) :=
  match splitColon k with
  | p :: seg :: _ => (pyInt seg).map (fun n => (p, n))
  | _ => none

/-- Total proxy for the sort key (defaulted where `parseKey` raises; the
sort is only performed when every key parses). -/
def keyPair (k : Str) : Str × Nat := (parseKey k).getD ([], 0)

/-- Python tuple order on `(string, int)` sort keys: primary the path
segment (lexicographic by code point), secondary the number. -/
def pairLe (a b : Str × Nat) : Prop := a.1 < b.1 ∨ (a.1 = b.1 ∧ a.2 ≤ b.2)

/-- Order on report keys via their parsed sort keys. -/
def keyRel (a b : Str) : Prop := pairLe (keyPair a) (keyPair b)

instance : DecidableRel pairLe := fun a b => by
  unfold pairLe
  infer_instance

instance : DecidableRel keyRel := fun a b => by
  unfold keyRel
  infer_instance

/-- `sorted(list(modified_report), key=...)` (source line 264): computes the
key of every element (any failure raises — `none`), then sorts by key. -/
def sortReport (keys : List Str) : Option (List Str) :=
  if keys.all (fun k => (parseKey k).isSome) then
    some (List.insertionSort keyRel keys)
  else none

/-- Does `pat` occur as a contiguous substring? -/
def leadsWith : Str → Str → Bool
  | [], _ => true
  | _ :: _, [] => false
  | p :: ps, c :: cs => p = c && leadsWith ps cs

/-- Substring occurrence test. -/
def occursIn (pat : Str) : Str → Bool
  | [] => pat.isEmpty
  | c :: rest => leadsWith pat (c :: rest) || occursIn pat rest

/-- Alias state accumulated by pass 1 over a list of lines from a given
initial state. -/
def stateFrom (mapT : TMap) (st : AState) (lines : List Str) : AState :=
  lines.foldl (fun s l => observeLine mapT l s) st

/-- Alias state accumulated by pass 1 over the first lines of a file
(fresh state at file start, source line 96). -/
def stateAt (mapT : TMap) (lines : List Str) : AState := stateFrom mapT [] lines

/-- Example target table/column and map used by several concrete theorems:
the map `{"tb_x": ["col"]}`. -/
def exTbl : Str := "tb_x".toList

/-- Example target column. -/
def exCol : Str := "col".toList

/-- Example target map `{"tb_x": ["col"]}`. -/
def exMap : TMap := [(exTbl, [exCol])]

/-- Line 1 of the idempotence counterexample file. -/
def l2a : Str := "FROM tb_x tb_x.col".toList

/-- Line 2 of the idempotence counterexample file: a reference that is
already rewritten on the table side but not on the column side. -/
def l2b : Str := "ced_todo_tb_x.col".toList

/-- Line 1 after the first run: the direct reference is rewritten, and the
token following `tb_x` in the `FROM` clause is now `ced_todo_tb_x`. -/
def l2a' : Str := "FROM tb_x ced_todo_tb_x.ced_todo_col".toList

/-- Line 2 after the second run: the drifted alias `ced_todo_tb_x` inferred
from the rewritten line 1 makes the alias-usage pass match it. -/
def l2b' : Str := "ced_todo_tb_x.ced_todo_col".toList

/-- The direct-usage example line of the specification. -/
def lineC3 : Str :=
  "SELECT shipping_fee FROM tb_sys_receipts_order WHERE tb_sys_receipts_order.shipping_fee > 0".toList

/-- Expected rewrite of `lineC3`: only the qualified occurrence of
`shipping_fee` is prefixed. -/
def lineC3out : Str :=
  "SELECT shipping_fee FROM tb_sys_receipts_order WHERE ced_todo_tb_sys_receipts_order.ced_todo_shipping_fee > 0".toList

/-- Target map of the direct-usage example. -/
def mapC3 : TMap := [("tb_sys_receipts_order".toList, ["shipping_fee".toList])]

/-- A comma-separated implicit-join line declaring alias `r` for `tb_x`. -/
def lineC4 : Str := "select a from tb_other o, tb_x r".toList

/-- Target map of the reserved-word example. -/
def mapC6 : TMap := [("tb_sys_receipts_order".toList, ["status".toList])]

/-- The reserved-word example line: its only alias candidate is `WHERE`. -/
def lineC6 : Str := "FROM tb_sys_receipts_order WHERE x = 1".toList

/-- A later line that must not be treated as an alias usage. -/
def lineC6b : Str := "WHERE.status = 1".toList

/-- Lines of the alias-inference example (spec §8): declaration then use. -/
def lineC5a : Str := "FROM tb_x r".toList

/-- Use of the alias declared on `lineC5a`. -/
def lineC5b : Str := "r.col".toList

/-- A line whose direct reference gets rewritten (write-failure example). -/
def lineC10 : Str := "tb_x.col".toList

/-- Example accumulated report, as `(path, line)` pairs, for the report
ordering witness. -/
def c8pairs : List (Str × Nat) :=
  [("b.xml".toList, 2), ("a.xml".toList, 10), ("a.xml".toList, 3)]

theorem pairLe_total (a b : Str × Nat) : pairLe a b ∨ pairLe b a := by
  rcases lt_trichotomy a.1 b.1 with h | h | h
  · exact Or.inl (Or.inl h)
  · rcases Nat.le_total a.2 b.2 with h2 | h2
    · exact Or.inl (Or.inr ⟨h, h2⟩)
    · exact Or.inr (Or.inr ⟨h.symm, h2⟩)
  · exact Or.inr (Or.inl h)

theorem pairLe_trans {a b c : Str × Nat} (h1 : pairLe a b) (h2 : pairLe b c) : pairLe a c := by
  rcases h1 with h1 | ⟨e1, l1⟩
  · rcases h2 with h2 | ⟨e2, l2⟩
    · exact Or.inl (lt_trans h1 h2)
    · exact Or.inl (e2 ▸ h1)
  · rcases h2 with h2 | ⟨e2, l2⟩
    · exact Or.inl (e1 ▸ h2)
    · exact Or.inr ⟨e1.trans e2, le_trans l1 l2⟩

instance : IsTotal Str keyRel := ⟨fun _ _ => pairLe_total _ _⟩

instance : IsTrans Str keyRel := ⟨fun _ _ _ => pairLe_trans⟩

theorem mem_foldl_dedup [DecidableEq α] (a : α) :
    ∀ (l acc : List α),
      (a ∈ l.foldl (fun acc x => if x ∈ acc then acc else acc ++ [x]) acc ↔ a ∈ acc ∨ a ∈ l) := by
  intro l
  induction l with
  | nil => intro acc; simp
  | cons hd tl ih =>
    intro acc
    simp only [List.foldl_cons]
    by_cases h : hd ∈ acc
    · rw [if_pos h, ih]
      constructor
      · rintro (ha | ha)
        · exact Or.inl ha
        · exact Or.inr (List.mem_cons_of_mem _ ha)
      · rintro (ha | ha)
        · exact Or.inl ha
        · rcases List.mem_cons.mp ha with rfl | ha
          · exact Or.inl h
          · exact Or.inr ha
    · rw [if_neg h, ih]
      simp only [List.mem_append, List.mem_singleton, List.mem_cons]
      tauto

theorem mem_dedupFirst [DecidableEq α] (a : α) (l : List α) :
    a ∈ dedupFirst l ↔ a ∈ l := by
  unfold dedupFirst
  rw [mem_foldl_dedup]
  simp

theorem pass2E_err :
    ∀ (ks : List PatKey), (∃ c, PatKey.rmap c ∈ ks) → ∀ acc, pass2E ks acc = Except.error () := by
  intro ks
  induction ks with
  | nil => rintro ⟨c, hc⟩; cases hc
  | cons hd tl ih =>
    rintro ⟨c, hc⟩ acc
    cases hd with
    | rmap c0 => rfl
    | direct t c1 =>
      rcases List.mem_cons.mp hc with h | h
      · exact PatKey.noConfusion h
      · exact ih ⟨c, h⟩ _

/-- C1.  The claim asserts that processing any line with a non-empty target
map executes the four passes and yields a (possibly modified) line.  In the
source this is not what happens: the pass-2 loop at line 131 unpacks every
`replace_patterns` key as a 3-tuple while the dictionary also holds the
2-tuple keys `(col, 'resultmap')`, so as soon as the target map contains at
least one column the loop raises `ValueError` and no line is ever produced.
This theorem proves the faithful model always errors under exactly that
hypothesis. -/
theorem c1_pass_loop_raises (mapT : TMap) (st : AState) (line : Str)
    (h : ∃ t cs, (t, cs) ∈ mapT ∧ cs ≠ []) :
    processLineE mapT st line = Except.error () := by
  obtain ⟨t, cs, hm, hne⟩ := h
  obtain ⟨c, hc⟩ := List.exists_mem_of_ne_nil cs hne
  have hk : PatKey.rmap c ∈ allKeys mapT := by
    unfold allKeys
    rw [mem_dedupFirst]
    rw [List.mem_flatMap]
    refine ⟨(t, cs), hm, ?_⟩
    rw [List.mem_flatMap]
    exact ⟨c, hc, by simp⟩
  unfold processLineE
  rw [pass2E_err (allKeys mapT) ⟨c, hk⟩]

/-- Witness for C1: the crash hypothesis holds at the concrete map
`{"tb_x": ["col"]}` and any line, and the faithful model errors there. -/
theorem c1_pass_loop_raises_witness :
    (∃ t cs, (t, cs) ∈ exMap ∧ cs ≠ []) ∧
    processLineE exMap [] ("SELECT 1 FROM dual".toList) = Except.error () :=
  ⟨⟨exTbl, [exCol], by decide, by decide⟩,
    c1_pass_loop_raises exMap [] ("SELECT 1 FROM dual".toList) ⟨exTbl, [exCol], by decide, by decide⟩⟩

/-- C2.  Idempotence fails.  On the two-line file
`["FROM tb_x tb_x.col", "ced_todo_tb_x.col"]` with target `tb_x.col`:
the first run rewrites only line 1 (on line 2 the `(?<!\w)` guard correctly
refuses `ced_todo_tb_x.col`), but its rewrite changes the token that follows
`tb_x` in the `FROM` clause to `ced_todo_tb_x`, so on the second run the
alias detector binds alias `ced_todo_tb_x` and the alias-usage pass rewrites
line 2 — the second run's report gains the key `f:2`, contradicting the
claimed empty key set.  (In the unrepaired source both runs in fact die with
`ValueError` before producing anything, third conjunct.) -/
theorem c2_not_idempotent :
    processFile ("f".toList) (some [l2a, l2b]) true exMap [] =
      (true, ["f:1".toList], some [l2a', l2b]) ∧
    processFile ("f".toList) (some [l2a', l2b]) true exMap [] =
      (true, ["f:2".toList], some [l2a', l2b']) ∧
    processFileE ("f".toList) (some [l2a, l2b]) true exMap [] = Except.error () :=
  ⟨by decide, by decide, by rfl⟩

/-- C3.  The direct-usage substitution (pattern of source lines 29-33 with
the replacement template of line 107) rewrites the spec's example line
exactly as claimed: the qualified `tb_sys_receipts_order.shipping_fee`
becomes `ced_todo_tb_sys_receipts_order.ced_todo_shipping_fee` and the
unqualified `shipping_fee` in the select list is untouched; the whole
line-rewriting pipeline (intended model) produces the same line and marks it
modified.  The select list is verified unchanged by the leading-text check. -/
theorem c3_direct_usage_example :
    subnC (matchDirect ("tb_sys_receipts_order".toList) ("shipping_fee".toList)) lineC3 =
      (lineC3out, 1) ∧
    processLine mapC3 [] lineC3 = ([], lineC3out, true) ∧
    leadsWith ("SELECT shipping_fee FROM tb_sys_receipts_order WHERE ".toList) lineC3out = true :=
  ⟨by decide, by decide, by decide⟩

/-- C4.  The claim says the comma/whitespace implicit-join form binds the
alias token.  In the source, `alias = match.group(2) or match.group(4)`
(line 124) takes group 4 — the `([,\s])` separator capture of the second
branch — instead of the alias token (group 5).  On
`select a from tb_other o, tb_x r` the alias bound for `tb_x` is therefore
the one-character string `" "`, not `"r"`. -/
theorem c4_comma_form_binds_separator :
    observeLine exMap lineC4 [] = [(exTbl, [' '])] ∧ ([' '] : Str) ≠ "r".toList :=
  ⟨by decide, by decide⟩

/-- C7.  The claim asserts every rewrite pass completes with double-marker
free output.  In the source the pass never completes: the pass-2 loop raises
`ValueError` (first conjunct, faithful model).  Moreover, even in the
intended model the output is only double-marker free when the input is: a
line already containing `ced_todo_ced_todo_col` passes through unchanged
(second conjunct), so the output does contain two consecutive markers
(third conjunct). -/
theorem c7_no_double_marker_fails :
    processLineE exMap [] ("SELECT tb_x.col".toList) = Except.error () ∧
    processLine exMap [] ("ced_todo_ced_todo_col x".toList) =
      ([], "ced_todo_ced_todo_col x".toList, false) ∧
    occursIn ("ced_todo_ced_todo_".toList) ("ced_todo_ced_todo_col x".toList) = true :=
  ⟨by rfl, by decide, by decide⟩

/-- C9.  A failed read (source lines 87-92) returns `False` immediately:
the report set is untouched, nothing is written, and — being before the
pattern loop — not even the `ValueError` of pass 2 can fire, so the rest of
the run continues (both the faithful and the intended model return
normally). -/
theorem c9_read_failure_skips_file (path : Str) (writeOk : Bool) (mapT : TMap)
    (report : List Str) :
    processFileE path none writeOk mapT report = Except.ok (false, report, none) ∧
    processFile path none writeOk mapT report = (false, report, none) :=
  ⟨rfl, rfl⟩

/-- C10.  Keys are added to the shared report set line by line (source lines
166-170), before the write-back is attempted (line 182); a failed write only
logs and returns `False` (lines 186-195).  First conjunct: with a failing
write the report set ends up exactly as with a successful one, the return
value is `False`, and nothing is written.  Second conjunct, concretely: the
file `["tb_x.col"]` is rewritten in memory, its key `p:1` stays in the
report although the file on disk was never changed. -/
theorem c10_write_failure_keeps_keys :
    (∀ (path : Str) (lines : List Str) (mapT : TMap) (report : List Str),
      (processFile path (some lines) false mapT report).2.1 =
        (processFile path (some lines) true mapT report).2.1 ∧
      (processFile path (some lines) false mapT report).1 = false ∧
      (processFile path (some lines) false mapT report).2.2 = none) ∧
    processFile ("p".toList) (some [lineC10]) false exMap [] =
      (false, ["p:1".toList], none) := by
  refine ⟨?_, by decide⟩
  intro path lines mapT report
  unfold processFile
  by_cases h : (runLines mapT [] 1 lines).2.isEmpty <;> simp [h]

theorem lookupG_setA (st : AState) (k v k2 : Str) :
    lookupG (setA st k v) k2 = if k2 = k then some v else lookupG st k2 := by
  induction st with
  | nil =>
    simp only [setA, lookupG]
    by_cases h : k = k2
    · rw [if_pos h, if_pos h.symm]
    · rw [if_neg h, if_neg (fun he => h he.symm)]
  | cons hd tl ih =>
    obtain ⟨k0, v0⟩ := hd
    simp only [setA]
    by_cases h0 : k0 = k
    · rw [if_pos h0]
      simp only [lookupG]
      by_cases h2 : k0 = k2
      · rw [if_pos h2, if_pos (h2.symm.trans h0)]
      · rw [if_neg h2, if_neg (fun he => h2 (h0.trans he.symm)), if_neg h2]
    · rw [if_neg h0]
      simp only [lookupG]
      by_cases h2 : k0 = k2
      · rw [if_pos h2, if_neg (fun he => h0 (h2.trans he)), if_pos h2]
      · rw [if_neg h2, ih, if_neg h2]

theorem lookupG_updateAlias (st : AState) (t : Str) (cands : List Str) :
    lookupG (updateAlias st t cands) t =
      ((cands.filter validAlias).getLast?).elim (lookupG st t) some := by
  induction cands generalizing st with
  | nil => simp [updateAlias]
  | cons hd tl ih =>
    simp only [updateAlias, List.foldl_cons]
    by_cases h : validAlias hd
    · rw [if_pos h]
      have := ih (setA st t hd)
      unfold updateAlias at this
      rw [this, List.filter_cons_of_pos h]
      cases hfl : tl.filter validAlias with
      | nil => simp [hfl, lookupG_setA]
      | cons a l =>
        simp only [hfl, List.getLast?_cons_cons]
        obtain ⟨x, hx⟩ := Option.isSome_iff_exists.mp
          (List.getLast?_isSome.mpr (List.cons_ne_nil a l))
        rw [hx]
        rfl
    · rw [if_neg h]
      have := ih st
      unfold updateAlias at this
      rw [this, List.filter_cons_of_neg h]

theorem lookupG_updateAlias_mem (st : AState) (t : Str) (cands : List Str) (t2 a : Str) :
    lookupG (updateAlias st t cands) t2 = some a →
    lookupG st t2 = some a ∨ validAlias a = true := by
  induction cands generalizing st with
  | nil => exact fun h => Or.inl h
  | cons hd tl ih =>
    intro h
    simp only [updateAlias, List.foldl_cons] at h
    by_cases hv : validAlias hd
    · rw [if_pos hv] at h
      rcases ih (setA st t hd) h with h2 | h2
      · rw [lookupG_setA] at h2
        by_cases he : t2 = t
        · rw [if_pos he] at h2
          exact Or.inr ((Option.some.inj h2) ▸ hv)
        · rw [if_neg he] at h2
          exact Or.inl h2
      · exact Or.inr h2
    · rw [if_neg hv] at h
      exact ih st h

theorem observeLine_values (mapT : TMap) (line : Str) :
    ∀ (st : AState) (t a : Str),
      lookupG (observeLine mapT line st) t = some a →
      lookupG st t = some a ∨ validAlias a = true := by
  induction mapT with
  | nil => exact fun st t a h => Or.inl h
  | cons hd tl ih =>
    intro st t a h
    simp only [observeLine, List.foldl_cons] at h
    rcases ih _ t a h with h2 | h2
    · exact lookupG_updateAlias_mem _ _ _ _ _ h2
    · exact Or.inr h2

theorem stateFrom_values (mapT : TMap) :
    ∀ (lines : List Str) (st : AState) (t a : Str),
      lookupG (stateFrom mapT st lines) t = some a →
      lookupG st t = some a ∨ validAlias a = true := by
  intro lines
  induction lines with
  | nil => exact fun st t a h => Or.inl h
  | cons l ls ih =>
    intro st t a h
    simp only [stateFrom, List.foldl_cons] at h
    rcases ih (observeLine mapT l st) t a h with h2 | h2
    · exact observeLine_values mapT l st t a h2
    · exact Or.inr h2

theorem runLines_char (mapT : TMap) :
    ∀ (lines : List Str) (st : AState) (i0 i : Nat), i < lines.length →
      (runLines mapT st i0 lines).1[i]? =
        some (rewritePasses mapT (stateFrom mapT st (lines.take (i + 1))) (lines.getD i [])).1 := by
  intro lines
  induction lines with
  | nil => intro st i0 i h; simp at h
  | cons l ls ih =>
    intro st i0 i h
    cases i with
    | zero =>
      simp only [runLines, List.getElem?_cons_zero, List.take_succ_cons, List.take_zero,
        stateFrom, List.foldl_cons, List.foldl_nil, List.getD_cons_zero]
      rfl
    | succ j =>
      have hj : j < ls.length := Nat.succ_lt_succ_iff.mp h
      have hih := ih (observeLine mapT l st) (i0 + 1) j hj
      simp only [runLines, List.getElem?_cons_succ, List.take_succ_cons, stateFrom,
        List.foldl_cons, List.getD_cons_succ]
      simp only [stateFrom] at hih
      exact hih

/-- C5.  Alias binding is line-local-forward.  First conjunct: the output
for line `i` (0-based here; the report numbers lines from 1) is obtained by
running passes 2-4 with the alias state accumulated by pass 1 over exactly
the first `i+1` lines — so a declaration on line N takes effect on line N
itself and stays in effect for all later lines until overwritten, and the
output of a line never depends on declarations of later lines.  Second
conjunct: within one line the candidates are folded left to right, so the
table's resulting alias is the last (right-most) valid candidate, and only
when there is none does the previous binding survive. -/
theorem c5_alias_line_local_forward (mapT : TMap) (lines : List Str) (i : Nat)
    (h : i < lines.length) :
    ((runLines mapT [] 1 lines).1[i]? =
      some (rewritePasses mapT (stateAt mapT (lines.take (i + 1))) (lines.getD i [])).1) ∧
    ∀ (st : AState) (t : Str) (cands : List Str),
      lookupG (updateAlias st t cands) t =
        ((cands.filter validAlias).getLast?).elim (lookupG st t) some :=
  ⟨runLines_char mapT lines [] 1 i h,
   fun st t cands => lookupG_updateAlias st t cands⟩

/-- Witness for C5 at the spec's alias-inference example: the second line
`r.col` of `["FROM tb_x r", "r.col"]` is rewritten with the alias state
observed over both lines (the alias `r` declared on line 1), and concretely
becomes `r.ced_todo_col`. -/
theorem c5_alias_line_local_forward_witness :
    ((runLines exMap [] 1 [lineC5a, lineC5b]).1[1]? =
      some (rewritePasses exMap (stateAt exMap ([lineC5a, lineC5b].take 2))
        ([lineC5a, lineC5b].getD 1 [])).1) ∧
    (runLines exMap [] 1 [lineC5a, lineC5b]).1[1]? = some ("r.ced_todo_col".toList) :=
  ⟨(c5_alias_line_local_forward exMap [lineC5a, lineC5b] 1 (by decide)).1, by decide⟩

/-- C6.  First conjunct: in any file state reachable by the alias tracker
(any target map, any line prefix), every bound alias has an upper-cased form
outside the reserved-word list — a reserved candidate never becomes the
current alias (the guard of source line 125).  Second conjunct: the example
line `FROM tb_sys_receipts_order WHERE x = 1` binds nothing (its only
candidate is `WHERE`).  Third conjunct: the later line `WHERE.status = 1` is
left unchanged — in particular not rewritten as an alias usage. -/
theorem c6_reserved_guard :
    (∀ (mapT : TMap) (lines : List Str) (t a : Str),
        lookupG (stateAt mapT lines) t = some a →
        (a.map Char.toUpper) ∉ reservedWords) ∧
    observeLine mapC6 lineC6 [] = [] ∧
    processLine mapC6 [] lineC6b = ([], lineC6b, false) := by
  refine ⟨?_, by decide, by decide⟩
  intro mapT lines t a h
  rcases stateFrom_values mapT lines [] t a h with h2 | h2
  · simp [lookupG] at h2
  · simp only [validAlias, Bool.and_eq_true, decide_eq_true_eq] at h2
    exact h2.2

/-- Witness for C6: on the file `["FROM tb_x r"]` the tracker binds `r` for
`tb_x`, and the theorem yields that `R` is not reserved. -/
theorem c6_reserved_guard_witness :
    (("r".toList.map Char.toUpper) ∉ reservedWords) :=
  c6_reserved_guard.1 exMap [lineC5a] exTbl ("r".toList) (by decide)

theorem digitChar_toNat (m : Nat) (h : m < 10) : (Char.ofNat (48 + m)).toNat = 48 + m := by
  interval_cases m <;> decide

theorem digitChar_isDigit (m : Nat) (h : m < 10) : (Char.ofNat (48 + m)).isDigit = true := by
  interval_cases m <;> decide

theorem digitsVal_append (xs : Str) (c : Char) :
    digitsVal (xs ++ [c]) = digitsVal xs * 10 + (c.toNat - 48) := by
  simp [digitsVal, List.foldl_append]

theorem natDigsAux_spec :
    ∀ (fuel n : Nat), n < fuel →
      natDigsAux fuel n ≠ [] ∧ (∀ c ∈ natDigsAux fuel n, c.isDigit = true) ∧
      digitsVal (natDigsAux fuel n) = n := by
  intro fuel
  induction fuel with
  | zero => intro n h; omega
  | succ f ih =>
    intro n h
    by_cases h10 : n < 10
    · simp only [natDigsAux, if_pos h10]
      refine ⟨by simp, ?_, ?_⟩
      · intro c hc
        rw [List.mem_singleton] at hc
        subst hc
        exact digitChar_isDigit n h10
      · simp only [digitsVal, List.foldl_cons, List.foldl_nil, Nat.zero_mul, Nat.zero_add]
        rw [digitChar_toNat n h10]
        omega
    · have h1 : n / 10 < n := Nat.div_lt_self (by omega) (by omega)
      have h2 : n / 10 < f := by omega
      obtain ⟨hne, hdig, hval⟩ := ih (n / 10) h2
      simp only [natDigsAux, if_neg h10]
      refine ⟨by simp, ?_, ?_⟩
      · intro c hc
        rcases List.mem_append.mp hc with hc | hc
        · exact hdig c hc
        · rw [List.mem_singleton] at hc
          subst hc
          exact digitChar_isDigit (n % 10) (Nat.mod_lt n (by omega))
      · rw [digitsVal_append, hval, digitChar_toNat (n % 10) (Nat.mod_lt n (by omega))]
        omega

theorem natDigs_spec (n : Nat) :
    natDigs n ≠ [] ∧ (∀ c ∈ natDigs n, c.isDigit = true) ∧ digitsVal (natDigs n) = n :=
  natDigsAux_spec (n + 1) n (by omega)

theorem dropWhile_eq_self_of (p : Char → Bool) (l : Str)
    (h : ∀ c ∈ l, p c = false) : l.dropWhile p = l := by
  cases l with
  | nil => rfl
  | cons c cs =>
    rw [List.dropWhile_cons, if_neg (by simp [h c (List.mem_cons_self c cs)])]

theorem isDigit_not_space (c : Char) (h : c.isDigit = true) : isSpaceChar c = false := by
  simp only [isSpaceChar, Bool.or_eq_false_iff, decide_eq_false_iff_not]
  refine ⟨⟨⟨⟨⟨?_, ?_⟩, ?_⟩, ?_⟩, ?_⟩, ?_⟩ <;> rintro rfl <;> exact absurd h (by decide)

theorem pyInt_digits (l : Str) (hne : l ≠ []) (hd : ∀ c ∈ l, c.isDigit = true) :
    pyInt l = some (digitsVal l) := by
  have hns : ∀ c ∈ l, isSpaceChar c = false := fun c hc => isDigit_not_space c (hd c hc)
  have h1 : l.dropWhile isSpaceChar = l := dropWhile_eq_self_of _ _ hns
  have h2 : l.reverse.dropWhile isSpaceChar = l.reverse :=
    dropWhile_eq_self_of _ _ (fun c hc => hns c (List.mem_reverse.mp hc))
  unfold pyInt
  rw [h1, h2, List.reverse_reverse]
  rw [if_neg (by simpa using hne)]
  rw [if_pos (List.all_eq_true.mpr (fun c hc => hd c hc))]

theorem splitColon_no_colon : ∀ (l : Str), (':' : Char) ∉ l → splitColon l = [l] := by
  intro l
  induction l with
  | nil => intro _; rfl
  | cons c rest ih =>
    intro h
    have hc : ¬ c = ':' := fun he => h (he ▸ List.mem_cons_self c rest)
    simp only [splitColon, if_neg hc, ih (fun hm => h (List.mem_cons_of_mem c hm))]

theorem splitColon_append (p t : Str) (hp : (':' : Char) ∉ p) :
    splitColon (p ++ ':' :: t) = p :: splitColon t := by
  induction p with
  | nil => simp [splitColon]
  | cons c rest ih =>
    have hc : ¬ c = ':' := fun he => hp (he ▸ List.mem_cons_self c rest)
    have ih2 := ih (fun hm => hp (List.mem_cons_of_mem c hm))
    simp only [List.cons_append, splitColon, List.append_eq, if_neg hc, ih2]

theorem parseKey_makeKey (p : Str) (n : Nat) (hp : (':' : Char) ∉ p) :
    parseKey (makeKey p n) = some (p, n) := by
  obtain ⟨hne, hdig, hval⟩ := natDigs_spec n
  have hnc : (':' : Char) ∉ natDigs n := fun hm => absurd (hdig _ hm) (by decide)
  unfold makeKey parseKey
  rw [splitColon_append p (natDigs n) hp, splitColon_no_colon _ hnc]
  show Option.map (fun m => (p, m)) (pyInt (natDigs n)) = some (p, n)
  rw [pyInt_digits _ hne hdig, hval]
  rfl

theorem nodup_foldl_setAdd : ∀ (ks acc : List Str), acc.Nodup → (ks.foldl setAdd acc).Nodup := by
  intro ks
  induction ks with
  | nil => exact fun _ h => h
  | cons hd tl ih =>
    intro acc h
    simp only [List.foldl_cons]
    apply ih
    unfold setAdd
    by_cases hm : hd ∈ acc
    · rwa [if_pos hm]
    · rw [if_neg hm]
      rw [List.nodup_append]
      exact ⟨h, List.nodup_singleton hd, fun a ha hb => hm ((List.mem_singleton.mp hb) ▸ ha)⟩

theorem mem_foldl_setAdd : ∀ (ks acc : List Str) (x : Str),
    x ∈ ks.foldl setAdd acc → x ∈ acc ∨ x ∈ ks := by
  intro ks
  induction ks with
  | nil => exact fun _ x h => Or.inl h
  | cons hd tl ih =>
    intro acc x h
    simp only [List.foldl_cons] at h
    rcases ih _ x h with h2 | h2
    · unfold setAdd at h2
      by_cases hm : hd ∈ acc
      · rw [if_pos hm] at h2
        exact Or.inl h2
      · rw [if_neg hm] at h2
        rcases List.mem_append.mp h2 with h3 | h3
        · exact Or.inl h3
        · rw [List.mem_singleton] at h3
          exact Or.inr (h3 ▸ List.mem_cons_self hd tl)
    · exact Or.inr (List.mem_cons_of_mem hd h2)

/-- C8 counterexample.  The claim asserts the report is emitted sorted by
(file path, line number) for every set of accumulated keys.  The sort key of
source line 264 is `(x.split(':')[0], int(x.split(':')[1]))`: for a file
path containing a colon — e.g. the Windows-style path `C:a.xml`, and the
script's own default scan root is a Windows path — the second `':'`-segment
is part of the path, and `int` raises `ValueError`, so no sorted report is
emitted at all. -/
theorem c8_sort_raises_counterexample :
    sortReport ["C:a.xml:3".toList] = none := by decide

/-- C8, amended: for every set of accumulated keys whose file paths contain
no colon, the report set is duplicate-free and is emitted sorted, primary
key the path (lexicographic) and secondary key the line number (numeric) —
that is the order `keyRel` via `parseKey`, and every emitted key parses back
to its originating `(path, line)` pair. -/
theorem c8_report_dedup_sorted (pairs : List (Str × Nat))
    (h : ∀ pr ∈ pairs, (':' : Char) ∉ pr.1) :
    ((pairs.map (fun pr => makeKey pr.1 pr.2)).foldl setAdd []).Nodup ∧
    ∃ out, sortReport ((pairs.map (fun pr => makeKey pr.1 pr.2)).foldl setAdd []) = some out ∧
      out.Perm ((pairs.map (fun pr => makeKey pr.1 pr.2)).foldl setAdd []) ∧
      List.Sorted keyRel out ∧
      ∀ k ∈ out, ∃ pr ∈ pairs, k = makeKey pr.1 pr.2 ∧ parseKey k = some pr := by
  have hall : ∀ k ∈ (pairs.map (fun pr => makeKey pr.1 pr.2)).foldl setAdd [],
      ∃ pr ∈ pairs, k = makeKey pr.1 pr.2 ∧ parseKey k = some pr := by
    intro k hk
    rcases mem_foldl_setAdd _ _ _ hk with h0 | h0
    · cases h0
    · rcases List.mem_map.mp h0 with ⟨pr, hpr, rfl⟩
      exact ⟨pr, hpr, rfl, parseKey_makeKey pr.1 pr.2 (h pr hpr)⟩
  have hsome : ((pairs.map (fun pr => makeKey pr.1 pr.2)).foldl setAdd []).all
      (fun k => (parseKey k).isSome) = true := by
    rw [List.all_eq_true]
    intro k hk
    obtain ⟨pr, _, _, hpk⟩ := hall k hk
    rw [hpk]
    rfl
  refine ⟨nodup_foldl_setAdd _ [] List.nodup_nil,
    List.insertionSort keyRel ((pairs.map (fun pr => makeKey pr.1 pr.2)).foldl setAdd []),
    ?_, ?_, ?_, ?_⟩
  · unfold sortReport
    rw [if_pos hsome]
  · exact List.perm_insertionSort keyRel _
  · exact List.sorted_insertionSort keyRel _
  · intro k hk
    exact hall k ((List.mem_insertionSort keyRel).mp hk)

/-- Witness for the amended C8 at a concrete key set: three keys over two
paths, out of order; the theorem applies and the definitions evaluate. -/
theorem c8_report_dedup_sorted_witness :
    ((c8pairs.map (fun pr => makeKey pr.1 pr.2)).foldl setAdd []).Nodup ∧
    ∃ out, sortReport ((c8pairs.map (fun pr => makeKey pr.1 pr.2)).foldl setAdd []) = some out ∧
      out.Perm ((c8pairs.map (fun pr => makeKey pr.1 pr.2)).foldl setAdd []) ∧
      List.Sorted keyRel out ∧
      ∀ k ∈ out, ∃ pr ∈ c8pairs, k = makeKey pr.1 pr.2 ∧ parseKey k = some pr :=
  c8_report_dedup_sorted c8pairs (by decide)
